import Mathlib

/-!
Shallow embedding of the crater Game Gear emulator's MMU (src/mmu.c) and of
the display-geometry constants (src/gamegear.h, src/emulator.c).

Machine bytes and addresses are modelled as `Nat`; a C `uint8_t`/`uint16_t`
argument becomes a `Nat` hypothesis (`v < 256`, `addr < 0x10000`) or an
explicit `% 2 ^ 16` where the C type conversion wraps.  A C pointer into the
ROM image (`const uint8_t *`) is modelled as the byte function it points to:
the bank pointer `data + off` becomes `fun i => data (off + i)`.  A null
pointer becomes `none`.
-/

/-- Modelled from the spec: the constants of mmu.h (the header is not part of
the provided sources).  Spec section 3: a bank is a 16 KiB slice of ROM. -/
def MMU_ROM_BANK_SIZE : Nat := 16 * 1024

/-- Modelled from the spec: 64 ROM bank references (spec section 4.1). -/
def MMU_NUM_ROM_BANKS : Nat := 64

/-- Modelled from the spec: three pageable slots (spec sections 3 and 4.1). -/
def MMU_NUM_SLOTS : Nat := 3

/-- Modelled from the spec: 8 KiB of system RAM (spec sections 3 and 4.1). -/
def MMU_SYSTEM_RAM_SIZE : Nat := 8 * 1024

/-- Pointwise update of a table modelled as a function, i.e. `t[k] = v`. -/
def upd {α : Type} (f : Nat → α) (k : Nat) (v : α) : Nat → α :=
  fun i => if i = k then v else f i

/-- The MMU state of mmu.h: 8 KiB system RAM, three slot pointers, 64 ROM
bank pointers.  Pointers into the borrowed ROM image are carried as the byte
functions they point to; `none` is a null pointer. -/
structure MMU where
  system_ram : Nat → Nat
  map_slots : Nat → Option (Nat → Nat)
  rom_banks : Nat → Option (Nat → Nat)

/-- mmu_init: the system RAM is freshly allocated (uninitialised, hence an
arbitrary parameter), every slot and bank pointer is set to NULL. -/
def mmu_init (ram0 : Nat → Nat) : MMU :=
  { system_ram := ram0
    map_slots := fun _ => none
    rom_banks := fun _ => none }

/-- map_slot: `mmu->map_slots[slot] = mmu->rom_banks[bank]`. -/
def map_slot (m : MMU) (slot bank : Nat) : MMU :=
  { m with map_slots := upd m.map_slots slot (m.rom_banks bank) }

/-- mmu_power: map slot k to bank k for each of the three slots, then
`memset(mmu->system_ram, 0xFF, MMU_SYSTEM_RAM_SIZE)`. -/
def mmu_power (m : MMU) : MMU :=
  let m := map_slot m 0 0
  let m := map_slot m 1 1
  let m := map_slot m 2 2
  { m with system_ram := fun i =>
      if i < MMU_SYSTEM_RAM_SIZE then 0xFF else m.system_ram i }

/-- Inner loop of mmu_load_rom:
`for (mirror = bank; mirror < MMU_NUM_ROM_BANKS; mirror += banks)
     rom_banks[mirror] = data + bank * MMU_ROM_BANK_SIZE;`
(`ptr` is the pointer being stored, `step` the bank count).  The loop is run
on a structural fuel; `MMU_NUM_ROM_BANKS` iterations always suffice because
the loop body is only ever reached with `step ≥ 1`. -/
def set_mirrors (ptr : Nat → Nat) (step : Nat) :
    Nat → Nat → (Nat → Option (Nat → Nat)) → (Nat → Option (Nat → Nat))
  | 0, _, rb => rb
  | fuel + 1, mirror, rb =>
    if mirror < MMU_NUM_ROM_BANKS then
      set_mirrors ptr step fuel (mirror + step) (upd rb mirror (some ptr))
    else rb

/-- Outer loop of mmu_load_rom: `for (bank = 0; bank < banks; bank++)`,
each iteration running the mirror loop for that bank.  Fuel `banks`
iterations is exact. -/
def load_rom_banks (data : Nat → Nat) (banks : Nat) :
    Nat → Nat → (Nat → Option (Nat → Nat)) → (Nat → Option (Nat → Nat))
  | 0, _, rb => rb
  | fuel + 1, bank, rb =>
    if bank < banks then
      load_rom_banks data banks fuel (bank + 1)
        (set_mirrors (fun i => data (bank * MMU_ROM_BANK_SIZE + i)) banks
          MMU_NUM_ROM_BANKS bank rb)
    else rb

/-- mmu_load_rom: if the size is not a multiple of the bank size, return
without touching anything; otherwise clamp the bank count to
`MMU_NUM_ROM_BANKS` and fill the bank table by the two nested loops. -/
def mmu_load_rom (m : MMU) (data : Nat → Nat) (size : Nat) : MMU :=
  if size % MMU_ROM_BANK_SIZE ≠ 0 then m
  else
    let banks0 := size / MMU_ROM_BANK_SIZE
    let banks := if banks0 > MMU_NUM_ROM_BANKS then MMU_NUM_ROM_BANKS else banks0
    { m with rom_banks := load_rom_banks data banks banks 0 m.rom_banks }

/-- bank_byte_read: `return bank ? bank[addr] : 0xFF;`. -/
def bank_byte_read (bank : Option (Nat → Nat)) (addr : Nat) : Nat :=
  match bank with
  | none => 0xFF
  | some f => f addr

/-- mmu_read_byte: region dispatch over the 16-bit address space. -/
def mmu_read_byte (m : MMU) (addr : Nat) : Nat :=
  if addr < 0x0400 then bank_byte_read (m.rom_banks 0) addr
  else if addr < 0x4000 then bank_byte_read (m.map_slots 0) addr
  else if addr < 0x8000 then bank_byte_read (m.map_slots 1) (addr - 0x4000)
  else if addr < 0xC000 then bank_byte_read (m.map_slots 2) (addr - 0x8000)
  else if addr < 0xE000 then m.system_ram (addr - 0xC000)
  else m.system_ram (addr - 0xE000)

/-- mmu_read_double: low byte at `addr`, high byte at `addr + 1`; the
increment of the `uint16_t` argument wraps modulo `2 ^ 16`. -/
def mmu_read_double (m : MMU) (addr : Nat) : Nat :=
  mmu_read_byte m addr + (mmu_read_byte m ((addr + 1) % 2 ^ 16) <<< 8)

/-- mmu_write_byte: below 0xC000 the write is refused; 0xC000-0xDFFF stores
into system RAM; 0xE000-0xFFFF first interprets the paging control registers
0xFFFD/0xFFFE/0xFFFF (0xFFFC is an unimplemented TODO) and then stores into
the RAM mirror.  Returns the success flag together with the new state. -/
def mmu_write_byte (m : MMU) (addr value : Nat) : Bool × MMU :=
  if addr < 0xC000 then (false, m)
  else if addr < 0xE000 then
    (true, { m with system_ram := upd m.system_ram (addr - 0xC000) value })
  else
    let m1 :=
      if addr = 0xFFFC then m
      else if addr = 0xFFFD then map_slot m 0 (value &&& 0x3F)
      else if addr = 0xFFFE then map_slot m 1 (value &&& 0x3F)
      else if addr = 0xFFFF then map_slot m 2 (value &&& 0x3F)
      else m
    (true, { m1 with system_ram := upd m1.system_ram (addr - 0xE000) value })

/-- mmu_write_double: two sequential byte writes, low byte (`value & 0xFF`)
first, then the high byte (`value >> 8`) at `addr + 1` (wrapping as a
`uint16_t`); the result is the conjunction of the two success flags. -/
def mmu_write_double (m : MMU) (addr value : Nat) : Bool × MMU :=
  let r1 := mmu_write_byte m addr (value &&& 0xFF)
  let r2 := mmu_write_byte r1.2 ((addr + 1) % 2 ^ 16) (value >>> 8)
  (r1.1 && r2.1, r2.2)

/-- A sequence of byte writes, applied left to right (success flags
discarded, as the claims about write sequences only concern the state). -/
def writeList (m : MMU) (ws : List (Nat × Nat)) : MMU :=
  ws.foldl (fun m w => (mmu_write_byte m w.1 w.2).2) m

/-- All bytes observable through the MMU state are 8-bit values, as the C
types `uint8_t` guarantee for the real state. -/
def MMU.bytesBounded (m : MMU) : Prop :=
  (∀ i, m.system_ram i < 256) ∧
  (∀ b f, m.rom_banks b = some f → ∀ j, f j < 256) ∧
  (∀ s f, m.map_slots s = some f → ∀ j, f j < 256)

/-- GG_SCREEN_WIDTH (gamegear.h): `160 + 96`. -/
def GG_SCREEN_WIDTH : Nat := 160 + 96

/-- GG_SCREEN_HEIGHT (gamegear.h): `144 + 48`. -/
def GG_SCREEN_HEIGHT : Nat := 144 + 48

/-- Number of pixels in the buffer allocated by setup_graphics in
emulator.c: `cr_malloc(sizeof(uint32_t) * GG_SCREEN_WIDTH * GG_SCREEN_HEIGHT)`
divided by the 4-byte pixel size. -/
def emu_pixels_count : Nat := GG_SCREEN_WIDTH * GG_SCREEN_HEIGHT

/-- Bytes allocated for the pixel buffer (`sizeof(uint32_t)` is 4). -/
def emu_pixels_bytes : Nat := 4 * GG_SCREEN_WIDTH * GG_SCREEN_HEIGHT

/-- Geometry of the streaming ARGB8888 texture created by setup_graphics. -/
def emu_texture_dims : Nat × Nat := (GG_SCREEN_WIDTH, GG_SCREEN_HEIGHT)

/-- A concrete MMU state used by witnesses: every bank pointer is mapped, as
after a successful load of a full 1 MiB image whose byte at offset `o` is
`o % 256`. -/
def mmuFull : MMU :=
  { system_ram := fun _ => 0xFF
    map_slots := fun _ => none
    rom_banks := fun b => some (fun j => (b * MMU_ROM_BANK_SIZE + j) % 256) }

/-- The pointer stored in `mmuFull` for bank `b`, spelled as a closed term. -/
def mmuFullBank (b : Nat) : Nat → Nat := fun j => (b * MMU_ROM_BANK_SIZE + j) % 256

section Lemmas

/-- A byte write never changes the bank table. -/
theorem mmu_write_byte_rom_banks (m : MMU) (a v : Nat) :
    ((mmu_write_byte m a v).2).rom_banks = m.rom_banks := by
  simp only [mmu_write_byte, map_slot]
  split_ifs <;> rfl

/-- A byte write never changes the slot table unless it targets a paging
register; in particular its `system_ram` component before the store is the
input RAM. -/
theorem mmu_write_byte_sys_ram_mirror (m : MMU) (addr v : Nat)
    (h1 : 0xE000 ≤ addr) :
    ((mmu_write_byte m addr v).2).system_ram = upd m.system_ram (addr - 0xE000) v := by
  simp only [mmu_write_byte, map_slot]
  split_ifs <;> first | omega | rfl

/-- A write sequence never changes the bank table. -/
theorem writeList_rom_banks (ws : List (Nat × Nat)) :
    ∀ m : MMU, (writeList m ws).rom_banks = m.rom_banks := by
  induction ws with
  | nil => intro m; rfl
  | cons w t ih =>
    intro m
    simp only [writeList, List.foldl_cons]
    rw [show List.foldl (fun m w => (mmu_write_byte m w.1 w.2).2) ((mmu_write_byte m w.1 w.2).2) t
        = writeList ((mmu_write_byte m w.1 w.2).2) t from rfl,
      ih, mmu_write_byte_rom_banks]

/-- Reads below 0x0400 go through the fixed bank-0 pointer. -/
theorem mmu_read_byte_low (m : MMU) (addr : Nat) (h : addr < 0x400) :
    mmu_read_byte m addr = bank_byte_read (m.rom_banks 0) addr := by
  unfold mmu_read_byte
  rw [if_pos h]

/-- Reads in 0xC000-0xDFFF come from system RAM. -/
theorem mmu_read_byte_ram (m : MMU) (addr : Nat) (h1 : 0xC000 ≤ addr)
    (h2 : addr < 0xE000) :
    mmu_read_byte m addr = m.system_ram (addr - 0xC000) := by
  unfold mmu_read_byte
  rw [if_neg (by omega), if_neg (by omega), if_neg (by omega), if_neg (by omega),
    if_pos h2]

/-- Reads at and above 0xE000 come from the RAM mirror. -/
theorem mmu_read_byte_mirror (m : MMU) (addr : Nat) (h1 : 0xE000 ≤ addr) :
    mmu_read_byte m addr = m.system_ram (addr - 0xE000) := by
  unfold mmu_read_byte
  rw [if_neg (by omega), if_neg (by omega), if_neg (by omega), if_neg (by omega),
    if_neg (by omega)]

/-- Every byte the MMU can ever return is an 8-bit value. -/
theorem mmu_read_byte_lt (m : MMU) (h : m.bytesBounded) (addr : Nat) :
    mmu_read_byte m addr < 256 := by
  obtain ⟨hr, hb, hs⟩ := h
  unfold mmu_read_byte bank_byte_read
  split_ifs
  · cases hx : m.rom_banks 0 with
    | none => simp [hx]
    | some f => simpa [hx] using hb 0 f hx addr
  · cases hx : m.map_slots 0 with
    | none => simp [hx]
    | some f => simpa [hx] using hs 0 f hx addr
  · cases hx : m.map_slots 1 with
    | none => simp [hx]
    | some f => simpa [hx] using hs 1 f hx (addr - 0x4000)
  · cases hx : m.map_slots 2 with
    | none => simp [hx]
    | some f => simpa [hx] using hs 2 f hx (addr - 0x8000)
  · exact hr _
  · exact hr _

/-- Adding a byte below a left-shifted value is the same as bitwise or. -/
theorem byte_add_shl (a b : Nat) (h : a < 256) : a + b <<< 8 = a ||| b <<< 8 := by
  have h8 : a < 2 ^ 8 := h
  apply Nat.eq_of_testBit_eq
  intro j
  rw [Nat.shiftLeft_eq, Nat.mul_comm b (2 ^ 8), Nat.testBit_lor, Nat.add_comm,
    Nat.testBit_mul_pow_two_add b h8 j, Nat.testBit_mul_pow_two]
  rcases Nat.lt_or_ge j 8 with hj | hj
  · simp [hj, Nat.not_le.mpr hj]
  · simp [Nat.not_lt.mpr hj, hj,
      Nat.testBit_lt_two_pow (Nat.lt_of_lt_of_le h8 (Nat.pow_le_pow_right (by norm_num) hj))]

/-- The witness state `mmuFull` stores only 8-bit values. -/
theorem mmuFull_bounded : mmuFull.bytesBounded := by
  refine ⟨fun i => by norm_num [mmuFull], ?_, ?_⟩
  · intro b f hf j
    have hf' : (fun j => (b * MMU_ROM_BANK_SIZE + j) % 256) = f := Option.some.inj hf
    rw [← hf']
    exact Nat.mod_lt _ (by norm_num)
  · intro s f hf
    simp [mmuFull] at hf

/-- Characterization of the mirror loop: with a positive step and enough
fuel, index `i` holds the stored pointer exactly when the loop visited it. -/
theorem set_mirrors_spec (ptr : Nat → Nat) (step : Nat) (hstep : 0 < step) :
    ∀ (fuel start : Nat) (rb : Nat → Option (Nat → Nat)),
      MMU_NUM_ROM_BANKS ≤ start + fuel * step →
      ∀ i, set_mirrors ptr step fuel start rb i =
        if start ≤ i ∧ i < MMU_NUM_ROM_BANKS ∧ (i - start) % step = 0
        then some ptr else rb i := by
  intro fuel
  induction fuel with
  | zero =>
    intro start rb hle i
    simp only [set_mirrors]
    rw [if_neg]
    rintro ⟨hi1, hi2, -⟩
    omega
  | succ n ih =>
    intro start rb hle i
    simp only [set_mirrors]
    by_cases hm : start < MMU_NUM_ROM_BANKS
    · rw [if_pos hm]
      have hle' : MMU_NUM_ROM_BANKS ≤ start + step + n * step := by
        rw [Nat.succ_mul] at hle
        omega
      rw [ih (start + step) (upd rb start (some ptr)) hle' i]
      by_cases hi : i = start
      · subst hi
        rw [if_neg (by rintro ⟨hc, -, -⟩; omega),
          if_pos ⟨Nat.le_refl _, hm, by rw [Nat.sub_self, Nat.zero_mod]⟩]
        simp [upd]
      · have hupd : upd rb start (some ptr) i = rb i := by simp [upd, hi]
        rw [hupd]
        have hiff : (start + step ≤ i ∧ i < MMU_NUM_ROM_BANKS ∧ (i - (start + step)) % step = 0)
            ↔ (start ≤ i ∧ i < MMU_NUM_ROM_BANKS ∧ (i - start) % step = 0) := by
          constructor
          · rintro ⟨ha, hb64, hc⟩
            refine ⟨by omega, hb64, ?_⟩
            have he : i - start = (i - (start + step)) + step := by omega
            rw [he, Nat.add_mod_right, hc]
          · rintro ⟨ha, hb64, hc⟩
            have hlt : start < i := Nat.lt_of_le_of_ne ha (Ne.symm hi)
            have hdvd : step ∣ (i - start) := Nat.dvd_of_mod_eq_zero hc
            have hge : step ≤ i - start := Nat.le_of_dvd (by omega) hdvd
            refine ⟨by omega, hb64, ?_⟩
            have he : i - start = (i - (start + step)) + step := by omega
            rw [he, Nat.add_mod_right] at hc
            exact hc
        rw [if_congr hiff rfl rfl]
    · rw [if_neg hm, if_neg]
      rintro ⟨hi1, hi2, -⟩
      omega

/-- Characterization of the outer load loop: starting at `bank` with enough
fuel, index `i` of the table is the pointer for bank `i % banks` exactly when
`i % banks` is in the range of banks still to be processed. -/
theorem load_rom_banks_spec (data : Nat → Nat) (banks : Nat) (hb : 0 < banks) :
    ∀ (fuel bank : Nat) (rb : Nat → Option (Nat → Nat)),
      banks ≤ bank + fuel →
      ∀ i, load_rom_banks data banks fuel bank rb i =
        if bank ≤ i % banks ∧ i < MMU_NUM_ROM_BANKS
        then some (fun j => data ((i % banks) * MMU_ROM_BANK_SIZE + j))
        else rb i := by
  intro fuel
  induction fuel with
  | zero =>
    intro bank rb hle i
    simp only [load_rom_banks]
    rw [if_neg]
    rintro ⟨hi1, -⟩
    have := Nat.mod_lt i hb
    omega
  | succ n ih =>
    intro bank rb hle i
    simp only [load_rom_banks]
    by_cases hbk : bank < banks
    · rw [if_pos hbk, ih (bank + 1) _ (by omega) i,
        set_mirrors_spec (fun j => data (bank * MMU_ROM_BANK_SIZE + j)) banks hb
          MMU_NUM_ROM_BANKS bank rb
          (Nat.le_trans (Nat.le_mul_of_pos_right _ hb) (Nat.le_add_left _ _)) i]
      rcases Nat.lt_or_ge i MMU_NUM_ROM_BANKS with hi64 | hi64
      · have hmod_lt : i % banks < banks := Nat.mod_lt i hb
        rcases Nat.lt_trichotomy (i % banks) bank with hlt | heq | hgt
        · rw [if_neg (by rintro ⟨hc, -⟩; omega), if_neg, if_neg (by rintro ⟨hc, -⟩; omega)]
          rintro ⟨hbi, -, hmod0⟩
          obtain ⟨q, hq⟩ := Nat.dvd_of_mod_eq_zero hmod0
          have hiq : i = bank + banks * q := by omega
          have : i % banks = bank := by
            rw [hiq, Nat.add_mul_mod_self_left, Nat.mod_eq_of_lt hbk]
          omega
        · rw [if_neg (by rintro ⟨hc, -⟩; omega), if_pos, if_pos ⟨by omega, hi64⟩, heq]
          refine ⟨by have := Nat.mod_le i banks; omega, hi64, ?_⟩
          have hdm := Nat.div_add_mod i banks
          have he : i - bank = banks * (i / banks) := by omega
          rw [he, Nat.mul_mod_right]
        · rw [if_pos ⟨by omega, hi64⟩, if_pos ⟨by omega, hi64⟩]
      · rw [if_neg (by rintro ⟨-, hc⟩; omega), if_neg (by rintro ⟨-, hc, -⟩; omega),
          if_neg (by rintro ⟨-, hc⟩; omega)]
    · rw [if_neg hbk, if_neg]
      rintro ⟨hi1, -⟩
      have := Nat.mod_lt i hb
      omega

/-- The bank table produced by a size-aligned load, before clamping is
resolved. -/
theorem mmu_load_rom_rom_banks (m : MMU) (data : Nat → Nat) (size : Nat)
    (hmod : size % MMU_ROM_BANK_SIZE = 0) :
    (mmu_load_rom m data size).rom_banks =
      load_rom_banks data
        (if size / MMU_ROM_BANK_SIZE > MMU_NUM_ROM_BANKS then MMU_NUM_ROM_BANKS
          else size / MMU_ROM_BANK_SIZE)
        (if size / MMU_ROM_BANK_SIZE > MMU_NUM_ROM_BANKS then MMU_NUM_ROM_BANKS
          else size / MMU_ROM_BANK_SIZE)
        0 m.rom_banks := by
  unfold mmu_load_rom
  rw [if_neg (fun hc => hc hmod)]

/-- The bank table of any successful (positive, size-aligned) load: bank `i`
points at image offset `(i % banks) * 16 KiB` with the bank count clamped to
64. -/
theorem mmu_load_rom_bank (m : MMU) (data : Nat → Nat) (size i : Nat)
    (hmod : size % MMU_ROM_BANK_SIZE = 0) (hpos : 0 < size)
    (hi : i < MMU_NUM_ROM_BANKS) :
    (mmu_load_rom m data size).rom_banks i =
      some (fun j =>
        data ((i % min (size / MMU_ROM_BANK_SIZE) MMU_NUM_ROM_BANKS)
          * MMU_ROM_BANK_SIZE + j)) := by
  have hBS : 0 < MMU_ROM_BANK_SIZE := by decide
  have hdvd : MMU_ROM_BANK_SIZE ∣ size := Nat.dvd_of_mod_eq_zero hmod
  have hq : 0 < size / MMU_ROM_BANK_SIZE := Nat.div_pos (Nat.le_of_dvd hpos hdvd) hBS
  have hmin : (if size / MMU_ROM_BANK_SIZE > MMU_NUM_ROM_BANKS then MMU_NUM_ROM_BANKS
      else size / MMU_ROM_BANK_SIZE) = min (size / MMU_ROM_BANK_SIZE) MMU_NUM_ROM_BANKS := by
    rw [Nat.min_def]
    split_ifs <;> omega
  have hbpos : 0 < min (size / MMU_ROM_BANK_SIZE) MMU_NUM_ROM_BANKS := by
    have hK : (0 : Nat) < MMU_NUM_ROM_BANKS := by decide
    omega
  rw [mmu_load_rom_rom_banks m data size hmod, hmin,
    load_rom_banks_spec data _ hbpos _ 0 m.rom_banks (by omega) i,
    if_pos ⟨Nat.zero_le _, hi⟩]

end Lemmas

/-- C7: a double read is the little-endian combination of two byte reads,
with the high byte's address wrapping modulo 2 ^ 16. -/
theorem read_double_little_endian_wrap (m : MMU) (addr : Nat)
    (h : m.bytesBounded) :
    mmu_read_double m addr =
      mmu_read_byte m addr ||| (mmu_read_byte m ((addr + 1) % 2 ^ 16) <<< 8) := by
  unfold mmu_read_double
  exact byte_add_shl _ _ (mmu_read_byte_lt m h addr)

/-- C7 witness at the wrapping address 0xFFFF. -/
theorem read_double_little_endian_wrap_witness :
    mmuFull.bytesBounded ∧
    mmu_read_double mmuFull 0xFFFF =
      mmu_read_byte mmuFull 0xFFFF
        ||| (mmu_read_byte mmuFull ((0xFFFF + 1) % 2 ^ 16) <<< 8) :=
  ⟨mmuFull_bounded, read_double_little_endian_wrap mmuFull 0xFFFF mmuFull_bounded⟩

/-- C4: reads below 0x0400 survive any write sequence unchanged; they return
0xFF when no ROM is loaded (bank 0 is null) and the loaded image's byte at
offset `addr` after any successful load. -/
theorem fixed_header_stable :
    (∀ (m : MMU) (ws : List (Nat × Nat)) (addr : Nat), addr < 0x400 →
      m.rom_banks 0 = none → mmu_read_byte (writeList m ws) addr = 0xFF) ∧
    (∀ (m : MMU) (data : Nat → Nat) (size : Nat) (ws : List (Nat × Nat)) (addr : Nat),
      addr < 0x400 → size % MMU_ROM_BANK_SIZE = 0 → 0 < size →
      mmu_read_byte (writeList (mmu_load_rom m data size) ws) addr = data addr) := by
  constructor
  · intro m ws addr ha h0
    rw [mmu_read_byte_low _ _ ha, writeList_rom_banks, h0]
    rfl
  · intro m data size ws addr ha hmod hpos
    rw [mmu_read_byte_low _ _ ha, writeList_rom_banks,
      mmu_load_rom_bank m data size 0 hmod hpos (by decide)]
    simp [bank_byte_read]

/-- C4 witness: a paging write at 0xFFFD does not disturb the fixed header,
with and without a loaded ROM. -/
theorem fixed_header_stable_witness :
    (5 : Nat) < 0x400 ∧ (mmu_init (fun _ => 0)).rom_banks 0 = none ∧
    mmu_read_byte (writeList (mmu_init (fun _ => 0)) [(0xFFFD, 9)]) 5 = 0xFF ∧
    mmu_read_byte
      (writeList (mmu_load_rom (mmu_init (fun _ => 0)) (fun k => k % 256) 16384)
        [(0xFFFE, 3)]) 5 = (fun k => k % 256) 5 :=
  ⟨by decide, rfl, fixed_header_stable.1 _ [(0xFFFD, 9)] 5 (by decide) rfl,
    fixed_header_stable.2 _ _ 16384 [(0xFFFE, 3)] 5 (by decide) (by decide) (by decide)⟩

/-- C5: after loading an image whose size is a multiple of 16 KiB between
16 KiB and 1 MiB, every bank index below 64 references image offset
`(i % (size / 16 KiB)) * 16 KiB`. -/
theorem load_rom_bank_mirroring (m : MMU) (data : Nat → Nat) (size i : Nat)
    (hmod : size % MMU_ROM_BANK_SIZE = 0) (hlo : MMU_ROM_BANK_SIZE ≤ size)
    (hhi : size ≤ MMU_ROM_BANK_SIZE * MMU_NUM_ROM_BANKS)
    (hi : i < MMU_NUM_ROM_BANKS) :
    (mmu_load_rom m data size).rom_banks i =
      some (fun j =>
        data ((i % (size / MMU_ROM_BANK_SIZE)) * MMU_ROM_BANK_SIZE + j)) := by
  have hBS : 0 < MMU_ROM_BANK_SIZE := by decide
  rw [mmu_load_rom_bank m data size i hmod (by omega) hi]
  have h64 : size / MMU_ROM_BANK_SIZE ≤ MMU_NUM_ROM_BANKS := by
    have hd := Nat.div_le_div_right (c := MMU_ROM_BANK_SIZE) hhi
    rwa [Nat.mul_div_cancel_left _ hBS] at hd
  rw [Nat.min_eq_left h64]

/-- C5 witness: a single-bank 16 KiB image, bank index 5. -/
theorem load_rom_bank_mirroring_witness :
    (16384 : Nat) % MMU_ROM_BANK_SIZE = 0 ∧ MMU_ROM_BANK_SIZE ≤ 16384 ∧
    (16384 : Nat) ≤ MMU_ROM_BANK_SIZE * MMU_NUM_ROM_BANKS ∧
    (5 : Nat) < MMU_NUM_ROM_BANKS ∧
    (mmu_load_rom (mmu_init (fun _ => 0)) (fun k => k % 256) 16384).rom_banks 5 =
      some (fun j =>
        (fun k => k % 256) ((5 % (16384 / MMU_ROM_BANK_SIZE)) * MMU_ROM_BANK_SIZE + j)) :=
  ⟨by decide, by decide, by decide, by decide,
    load_rom_bank_mirroring (mmu_init (fun _ => 0)) (fun k => k % 256) 16384 5
      (by decide) (by decide) (by decide) (by decide)⟩

/-- C10: a size-aligned image larger than 1 MiB is not rejected; the bank
count is clamped to 64, bank `i` references image offset `i * 16 KiB`, and
every byte any mapped bank can reference lies within the first 1 MiB. -/
theorem load_rom_oversize_clamp (m : MMU) (data : Nat → Nat) (size i : Nat)
    (hmod : size % MMU_ROM_BANK_SIZE = 0)
    (hhi : MMU_ROM_BANK_SIZE * MMU_NUM_ROM_BANKS < size)
    (hi : i < MMU_NUM_ROM_BANKS) :
    (mmu_load_rom m data size).rom_banks i =
      some (fun j => data (i * MMU_ROM_BANK_SIZE + j)) ∧
    ∀ j, j < MMU_ROM_BANK_SIZE →
      i * MMU_ROM_BANK_SIZE + j < MMU_ROM_BANK_SIZE * MMU_NUM_ROM_BANKS := by
  have hBS : 0 < MMU_ROM_BANK_SIZE := by decide
  constructor
  · have hKpos : 0 < MMU_ROM_BANK_SIZE * MMU_NUM_ROM_BANKS := by decide
    rw [mmu_load_rom_bank m data size i hmod (by omega) hi]
    obtain ⟨q, hq⟩ := Nat.dvd_of_mod_eq_zero hmod
    have hdivq : size / MMU_ROM_BANK_SIZE = q := by
      rw [hq, Nat.mul_div_cancel_left _ hBS]
    have hgt : MMU_NUM_ROM_BANKS < size / MMU_ROM_BANK_SIZE := by
      rw [hdivq]
      rw [hq] at hhi
      exact Nat.lt_of_mul_lt_mul_left hhi
    rw [Nat.min_eq_right (by omega), Nat.mod_eq_of_lt hi]
  · intro j hj
    simp only [MMU_ROM_BANK_SIZE, MMU_NUM_ROM_BANKS] at hj hi ⊢
    omega

/-- C10 witness: a 65-bank image (1 MiB + 16 KiB), bank index 63. -/
theorem load_rom_oversize_clamp_witness :
    (1064960 : Nat) % MMU_ROM_BANK_SIZE = 0 ∧
    MMU_ROM_BANK_SIZE * MMU_NUM_ROM_BANKS < 1064960 ∧
    (63 : Nat) < MMU_NUM_ROM_BANKS ∧
    ((mmu_load_rom (mmu_init (fun _ => 0)) (fun k => k % 256) 1064960).rom_banks 63 =
        some (fun j => (fun k => k % 256) (63 * MMU_ROM_BANK_SIZE + j)) ∧
      ∀ j, j < MMU_ROM_BANK_SIZE →
        63 * MMU_ROM_BANK_SIZE + j < MMU_ROM_BANK_SIZE * MMU_NUM_ROM_BANKS) :=
  ⟨by decide, by decide, by decide,
    load_rom_oversize_clamp (mmu_init (fun _ => 0)) (fun k => k % 256) 1064960 63
      (by decide) (by decide) (by decide)⟩

/-- C2: for every address in 0xC000-0xDFFF and every MMU state, the read at
the address and at its 0xE000-0xFFFF mirror agree, and a byte write through
either address updates the same underlying 8 KiB of RAM. -/
theorem ram_mirror_same_storage (m : MMU) (addr v : Nat)
    (h1 : 0xC000 ≤ addr) (h2 : addr ≤ 0xDFFF) :
    mmu_read_byte m addr = mmu_read_byte m (addr + 0x2000) ∧
    ((mmu_write_byte m addr v).2).system_ram
      = ((mmu_write_byte m (addr + 0x2000) v).2).system_ram := by
  have e : addr + 0x2000 - 0xE000 = addr - 0xC000 := by omega
  constructor
  · rw [mmu_read_byte_ram m addr h1 (by omega),
      mmu_read_byte_mirror m (addr + 0x2000) (by omega), e]
  · rw [mmu_write_byte_sys_ram_mirror m (addr + 0x2000) v (by omega), e]
    unfold mmu_write_byte
    rw [if_neg (by omega), if_pos (by omega)]

/-- C2 witness at address 0xC123 with value 7 on a concrete state. -/
theorem ram_mirror_same_storage_witness :
    0xC000 ≤ 0xC123 ∧ (0xC123 : Nat) ≤ 0xDFFF ∧
    (mmu_read_byte mmuFull 0xC123 = mmu_read_byte mmuFull (0xC123 + 0x2000) ∧
      ((mmu_write_byte mmuFull 0xC123 7).2).system_ram
        = ((mmu_write_byte mmuFull (0xC123 + 0x2000) 7).2).system_ram) :=
  ⟨by decide, by decide, ram_mirror_same_storage mmuFull 0xC123 7 (by decide) (by decide)⟩

/-- C3: a byte write fails exactly when the address is below 0xC000, and a
failed write returns the state (RAM, slots, banks, borrowed ROM pointers)
unchanged. -/
theorem write_byte_denied_iff_rom (m : MMU) (addr v : Nat) (h : addr < 0x10000) :
    ((mmu_write_byte m addr v).1 = false ↔ addr < 0xC000) ∧
    (addr < 0xC000 → mmu_write_byte m addr v = (false, m)) := by
  constructor
  · simp only [mmu_write_byte]
    split_ifs with h1 h2 <;> simp [h1]
  · intro hlt
    unfold mmu_write_byte
    rw [if_pos hlt]

/-- C3 witness at ROM address 0x8000. -/
theorem write_byte_denied_iff_rom_witness :
    (0x8000 : Nat) < 0x10000 ∧
    (((mmu_write_byte mmuFull 0x8000 7).1 = false ↔ (0x8000 : Nat) < 0xC000) ∧
      ((0x8000 : Nat) < 0xC000 → mmu_write_byte mmuFull 0x8000 7 = (false, mmuFull))) :=
  ⟨by decide, write_byte_denied_iff_rom mmuFull 0x8000 7 (by decide)⟩

/-- C6: a load with a size that is not a multiple of the 16 KiB bank size is
a silent no-op: the returned state is exactly the input state. -/
theorem load_rom_bad_size_noop (m : MMU) (data : Nat → Nat) (size : Nat)
    (h : size % MMU_ROM_BANK_SIZE ≠ 0) :
    mmu_load_rom m data size = m := by
  unfold mmu_load_rom
  rw [if_pos h]

/-- C6 witness with a 5-byte image. -/
theorem load_rom_bad_size_noop_witness :
    (5 : Nat) % MMU_ROM_BANK_SIZE ≠ 0 ∧
    mmu_load_rom mmuFull (fun _ => 0) 5 = mmuFull :=
  ⟨by decide, load_rom_bad_size_noop mmuFull (fun _ => 0) 5 (by decide)⟩

/-- C8: the shared pixel buffer is exactly 256 x 192 elements of 32 bits
(GG_SCREEN_WIDTH = 160 + 96, GG_SCREEN_HEIGHT = 144 + 48), and the host
allocates and presents it at exactly that geometry. -/
theorem screen_buffer_geometry :
    GG_SCREEN_WIDTH = 256 ∧ GG_SCREEN_HEIGHT = 192 ∧
    emu_pixels_count = 256 * 192 ∧ emu_pixels_bytes = 4 * (256 * 192) ∧
    emu_texture_dims = (256, 192) := by
  refine ⟨rfl, rfl, rfl, rfl, rfl⟩

/-- C9: a double write at 0xFFFF fails as a whole (the high byte wraps to
read-only address 0x0000), yet the low byte's effects persist with no
rollback: the final state is the state after the first byte write, slot 2 is
remapped to bank `v &&& 0x3F`, and mirror RAM offset 0x1FFF holds the low
byte. -/
theorem write_double_no_rollback (m : MMU) (v : Nat) :
    (mmu_write_double m 0xFFFF v).1 = false ∧
    (mmu_write_double m 0xFFFF v).2 = (mmu_write_byte m 0xFFFF (v &&& 0xFF)).2 ∧
    ((mmu_write_double m 0xFFFF v).2).map_slots 2 = m.rom_banks (v &&& 0x3F) ∧
    ((mmu_write_double m 0xFFFF v).2).system_ram 0x1FFF = v &&& 0xFF := by
  have hwrap : (0xFFFF + 1) % 2 ^ 16 = 0 := by norm_num
  have hand : v &&& 0xFF &&& 0x3F = v &&& 0x3F := by
    rw [Nat.land_assoc, show (0xFF &&& 0x3F : Nat) = 0x3F from by decide]
  have hsecond : ∀ m' : MMU, mmu_write_byte m' 0 (v >>> 8) = (false, m') := by
    intro m'
    unfold mmu_write_byte
    rw [if_pos (by omega)]
  refine ⟨?_, ?_, ?_, ?_⟩
  · simp only [mmu_write_double, hwrap, hsecond, Bool.and_false]
  · simp only [mmu_write_double, hwrap, hsecond]
  · simp only [mmu_write_double, hwrap, hsecond]
    unfold mmu_write_byte
    rw [if_neg (by omega), if_neg (by omega), if_neg (by omega), if_neg (by omega),
      if_neg (by omega), if_pos rfl]
    simp only [map_slot, upd, hand]
    rfl
  · simp only [mmu_write_double, hwrap, hsecond]
    rw [mmu_write_byte_sys_ram_mirror m 0xFFFF (v &&& 0xFF) (by omega)]
    simp [upd]

/-- C1: writing v to 0xFFFE remaps slot 1 to bank `v &&& 0x3F`, so that when
that bank reference is non-null the next read of 0x4000 returns the bank's
byte at intra-bank offset 0. -/
theorem slot1_remap_next_read (m : MMU) (v : Nat) (f : Nat → Nat)
    (hf : m.rom_banks (v &&& 0x3F) = some f) :
    ((mmu_write_byte m 0xFFFE v).2).map_slots 1 = m.rom_banks (v &&& 0x3F) ∧
    mmu_read_byte (mmu_write_byte m 0xFFFE v).2 0x4000 = f 0 := by
  have hslot : ((mmu_write_byte m 0xFFFE v).2).map_slots 1 = m.rom_banks (v &&& 0x3F) := by
    unfold mmu_write_byte
    rw [if_neg (by omega), if_neg (by omega), if_neg (by omega), if_neg (by omega),
      if_pos rfl]
    simp [map_slot, upd]
  refine ⟨hslot, ?_⟩
  unfold mmu_read_byte
  rw [if_neg (by omega), if_neg (by omega), if_pos (by omega), hslot, hf]
  rfl

/-- C1 witness: bank 5 of the fully loaded state. -/
theorem slot1_remap_next_read_witness :
    mmuFull.rom_banks (5 &&& 0x3F) = some (mmuFullBank 5) ∧
    (((mmu_write_byte mmuFull 0xFFFE 5).2).map_slots 1
        = mmuFull.rom_banks (5 &&& 0x3F) ∧
      mmu_read_byte (mmu_write_byte mmuFull 0xFFFE 5).2 0x4000 = mmuFullBank 5 0) :=
  ⟨rfl, slot1_remap_next_read mmuFull 5 (mmuFullBank 5) rfl⟩
